import Mathlib

/-!
Verification development for the walden ingestion scripts
(`ingests/faostat.py` and `ingests/wb_income_groups.py`).

The Python sources are shallowly embedded below.  Pure logic (date
parsing, the freshness scan, metadata construction, the control flow of
both `main` entry points) is translated directly from the source;
network and storage collaborators (`requests`, `owid.walden.files`,
`add_to_catalog`, `iter_docs`, `pandas`, `dateutil`) are modelled as
explicit inputs (`World` records of `Except`-valued responses), and the
observable effects of a run are recorded as an explicit event trace.
-/

deriving instance DecidableEq for Except

/-- Calendar date, modelling Python `datetime.date` values. -/
structure Date where
  year : Nat
  month : Nat
  day : Nat
deriving DecidableEq

/-- Python `date.__lt__`: lexicographic comparison on (year, month, day). -/
def Date.ltb (a b : Date) : Bool :=
  decide (a.year < b.year) ||
    (decide (a.year = b.year) &&
      (decide (a.month < b.month) ||
        (decide (a.month = b.month) && decide (a.day < b.day))))

/-- Gregorian leap-year rule used by `datetime.date` validation. -/
def leapYear (y : Nat) : Bool :=
  y % 4 == 0 && (y % 100 != 0 || y % 400 == 0)

/-- Number of days in a month, as validated by the `datetime.date` constructor. -/
def daysInMonth (y m : Nat) : Nat :=
  if m = 2 then (if leapYear y then 29 else 28)
  else if m = 4 ∨ m = 6 ∨ m = 9 ∨ m = 11 then 30
  else 31

/-- ASCII digit test on a character. -/
def isDigitChar (c : Char) : Bool :=
  48 ≤ c.toNat && c.toNat ≤ 57

/-- Numeric value of an ASCII digit character. -/
def digitVal (c : Char) : Nat :=
  c.toNat - 48

/-- Decimal value of a digit string (most significant digit first). -/
def digitsToNat (l : List Char) : Nat :=
  l.foldl (fun a c => a * 10 + digitVal c) 0

/-- ASCII digit character for a value below ten. -/
def digitChar (n : Nat) : Char :=
  Char.ofNat (48 + n)

/-- Two-digit zero-padded decimal rendering (for n below 100). -/
def pad2 (n : Nat) : List Char :=
  [digitChar (n / 10 % 10), digitChar (n % 10)]

/-- Four-digit zero-padded decimal rendering (for n below 10000). -/
def pad4 (n : Nat) : List Char :=
  [digitChar (n / 1000 % 10), digitChar (n / 100 % 10), digitChar (n / 10 % 10),
    digitChar (n % 10)]

/-- Python `str(date)` / `strftime` with format %Y-%m-%d: zero-padded ISO rendering. -/
def formatYMD (d : Date) : String :=
  String.mk (pad4 d.year ++ '-' :: pad2 d.month ++ '-' :: pad2 d.day)

/-- Python `str.lower` for the ASCII dataset codes: lower-case each
character (structural recursion over the character list). -/
def strToLower (s : String) : String :=
  String.mk (s.data.map Char.toLower)

/-- Split a character list at every dash, keeping empty segments. -/
def splitDash : List Char → List (List Char)
  | [] => [[]]
  | c :: rest =>
    let r := splitDash rest
    if c = '-' then [] :: r
    else
      match r with
      | h :: t => (c :: h) :: t
      | [] => [[c]]

/-- Parse a nonempty all-digit segment to its decimal value. -/
def parseDigits (l : List Char) : Option Nat :=
  if l ≠ [] ∧ l.all isDigitChar = true then some (digitsToNat l) else none

/-- Python `datetime.strptime(s, %Y-%m-%d).date()`: a four-digit year and
one- or two-digit month and day separated by dashes, validated by the
`datetime.date` constructor (month 1..12, day within the month, year at
least 1). Returns `none` where Python raises `ValueError`. -/
def parseYMD (s : String) : Option Date :=
  match splitDash s.data with
  | [ys, ms, ds] =>
    if ys.length = 4 ∧ 1 ≤ ms.length ∧ ms.length ≤ 2 ∧ 1 ≤ ds.length ∧ ds.length ≤ 2 then
      match parseDigits ys, parseDigits ms, parseDigits ds with
      | some y, some mo, some da =>
        if 1 ≤ y ∧ 1 ≤ mo ∧ mo ≤ 12 ∧ 1 ≤ da ∧ da ≤ daysInMonth y mo then
          some ⟨y, mo, da⟩
        else none
      | _, _, _ => none
    else none
  | _ => none

/-- Core of Python `datetime.fromisoformat`: exactly the ten-character
date portion YYYY-MM-DD with the `datetime.date` range validation. -/
def parseIsoCore : List Char → Option Date
  | [y1, y2, y3, y4, s1, m1, m2, s2, d1, d2] =>
    if s1 = '-' ∧ s2 = '-' ∧ ([y1, y2, y3, y4, m1, m2, d1, d2].all isDigitChar) = true then
      let y := digitsToNat [y1, y2, y3, y4]
      let mo := digitsToNat [m1, m2]
      let da := digitsToNat [d1, d2]
      if 1 ≤ y ∧ 1 ≤ mo ∧ mo ≤ 12 ∧ 1 ≤ da ∧ da ≤ daysInMonth y mo then
        some ⟨y, mo, da⟩
      else none
    else none
  | _ => none

/-- Two ASCII digits forming a value strictly below `bound`. -/
def twoDigit (a b : Char) (bound : Nat) : Bool :=
  isDigitChar a && isDigitChar b && decide (digitVal a * 10 + digitVal b < bound)

/-- Time portion accepted after the separator by `datetime.fromisoformat`:
HH:MM or HH:MM:SS (fractional seconds and offsets are not modelled; the
catalog feeds date-only strings). -/
def parseTimeTail : List Char → Bool
  | [h1, h2, ':', m1, m2] => twoDigit h1 h2 24 && twoDigit m1 m2 60
  | [h1, h2, ':', m1, m2, ':', s1, s2] =>
    twoDigit h1 h2 24 && twoDigit m1 m2 60 && twoDigit s1 s2 60
  | _ => false

/-- Python `datetime.fromisoformat(s).date()` as used by
`FAODataset.publication_date`: a strict YYYY-MM-DD prefix, optionally
followed by a one-character separator and a time portion.  Free-text
date strings are rejected (Python raises `ValueError`). -/
def fromisoformatDate (s : String) : Option Date :=
  let cs := s.data
  if cs.length = 10 then parseIsoCore cs
  else if 10 < cs.length then
    match parseIsoCore (cs.take 10) with
    | none => none
    | some d => if parseTimeTail (cs.drop 11) then some d else none
  else none

/-- One walden index document as yielded by `iter_docs` over the
namespace partition: its filename and the two fields read by the
freshness check.  `date_accessed` is kept as the raw string stored in
the index file. -/
structure IndexRecord where
  filename : String
  source_data_url : String
  date_accessed : String
deriving DecidableEq

/-- One record of the loop body of `is_dataset_already_up_to_date`:
the URL matches the candidate and the parsed `date_accessed` is
strictly later than the source modification date (a record whose date
does not parse never satisfies this). -/
def recordFresh (url : String) (M : Date) (r : IndexRecord) : Bool :=
  r.source_data_url == url &&
    (match parseYMD r.date_accessed with
     | some d => Date.ltb M d
     | none => false)

/-- Error message raised by `strptime` on an unparseable date string. -/
def strptimeErrorMsg : String :=
  "ValueError: time data does not match format %Y-%m-%d"

/-- Loop of `is_dataset_already_up_to_date`, threading the
`dataset_up_to_date` flag.  Every record has its `date_accessed` parsed
with `strptime` before the URL comparison, so an unparseable date raises
`ValueError` (returned here as `Except.error`) for the whole scan. -/
def isUpToDateScan (url : String) (M : Date) : List IndexRecord → Bool → Except String Bool
  | [], acc => Except.ok acc
  | r :: rs, acc =>
    match parseYMD r.date_accessed with
    | none => Except.error strptimeErrorMsg
    | some d =>
      isUpToDateScan url M rs (acc || (r.source_data_url == url && Date.ltb M d))

/-- `is_dataset_already_up_to_date(source_data_url, source_modification_date)`
from `ingests/faostat.py`, over a given state of the namespace index
partition (`iter_docs` order). -/
def is_dataset_already_up_to_date (index : List IndexRecord) (source_data_url : String)
    (source_modification_date : Date) : Except String Bool :=
  isUpToDateScan source_data_url source_modification_date index false

/-- Module constants of `ingests/faostat.py`. -/
def NAMESPACE : String := "faostat"

/-- Source name constant of `ingests/faostat.py`. -/
def SOURCE_NAME : String := "Food and Agriculture Organization of the United Nations"

/-- Landing page URL constant of `ingests/faostat.py`. -/
def FAO_DATA_URL : String := "http://www.fao.org/faostat/en/#data"

/-- License URL constant of `ingests/faostat.py`. -/
def LICENSE_URL : String := "http://www.fao.org/contact-us/terms/db-terms-of-use/en"

/-- License name constant of `ingests/faostat.py`. -/
def LICENSE_NAME : String := "CC BY-NC-SA 3.0 IGO"

/-- URL of this ingestion script, used in the auxiliary metadata record. -/
def GIT_URL_TO_THIS_FILE : String :=
  "https://github.com/owid/walden/blob/master/ingests/faostat.py"

/-- Allow-list of FAO dataset codes enabled for ingestion
(`INCLUDED_DATASETS_CODES` in `ingests/faostat.py`). -/
def INCLUDED_DATASETS_CODES : List String :=
  ["ae", "af", "ef", "ei", "emn", "ep", "fbs", "fbsh", "fo", "fs", "lc", "oe",
   "qa", "qc", "qcl", "qd", "qi", "ql", "qp", "qv", "rfb", "rfn", "rl", "rp", "rt"]

/-- One raw descriptor from the FAO catalog listing, restricted to the
fields the script reads. -/
structure Descriptor where
  datasetCode : String
  datasetName : String
  datasetDescription : String
  dateUpdate : String
  fileLocation : String
deriving DecidableEq

/-- Values stored in a metadata record (Python dict values here are
strings or integers). -/
inductive MetaValue where
  | str : String → MetaValue
  | int : Int → MetaValue
deriving DecidableEq

/-- `FAODataset.short_name`: the namespace joined to the lower-cased
dataset code. -/
def FAODataset.short_name (d : Descriptor) : String :=
  NAMESPACE ++ "_" ++ strToLower d.datasetCode

/-- `FAODataset.source_data_url`: the FileLocation field of the descriptor. -/
def FAODataset.source_data_url (d : Descriptor) : String :=
  d.fileLocation

/-- `FAODataset.publication_date`: `datetime.fromisoformat` applied to the
DateUpdate field of the descriptor (`none` where Python raises ValueError). -/
def FAODataset.publication_date (d : Descriptor) : Option Date :=
  fromisoformatDate d.dateUpdate

/-- `FAODataset.metadata`: the walden metadata record for one dataset,
given the run-wide version tag (module constant VERSION in the script).
`none` when the publication date does not parse. -/
def FAODataset.metadata (v : String) (d : Descriptor) : Option (List (String × MetaValue)) :=
  match fromisoformatDate d.dateUpdate with
  | none => none
  | some pd =>
    some [
      ("namespace", MetaValue.str NAMESPACE),
      ("short_name", MetaValue.str (FAODataset.short_name d)),
      ("name", MetaValue.str (d.datasetName ++ " - FAO (" ++ toString pd.year ++ ")")),
      ("description", MetaValue.str d.datasetDescription),
      ("source_name", MetaValue.str SOURCE_NAME),
      ("publication_year", MetaValue.int (pd.year : Int)),
      ("publication_date", MetaValue.str (formatYMD pd)),
      ("date_accessed", MetaValue.str v),
      ("version", MetaValue.str v),
      ("url", MetaValue.str FAO_DATA_URL),
      ("source_data_url", MetaValue.str d.fileLocation),
      ("file_extension", MetaValue.str "zip"),
      ("license_url", MetaValue.str LICENSE_URL),
      ("license_name", MetaValue.str LICENSE_NAME)]

/-- `FAOAdditionalMetadata.create_metadata`: the record for the auxiliary
metadata snapshot, given the run-wide version tag and the current date. -/
def fao_additional_metadata (v : String) (today : Date) : List (String × MetaValue) :=
  [("namespace", MetaValue.str NAMESPACE),
   ("short_name", MetaValue.str (NAMESPACE ++ "_metadata")),
   ("name", MetaValue.str ("Metadata and identifiers - FAO (" ++ toString today.year ++ ")")),
   ("source_name", MetaValue.str SOURCE_NAME),
   ("url", MetaValue.str FAO_DATA_URL),
   ("description", MetaValue.str "Metadata and identifiers used in FAO datasets"),
   ("date_accessed", MetaValue.str v),
   ("version", MetaValue.str v),
   ("publication_year", MetaValue.int (today.year : Int)),
   ("publication_date", MetaValue.str (formatYMD today)),
   ("file_extension", MetaValue.str "json"),
   ("license_name", MetaValue.str LICENSE_NAME),
   ("license_url", MetaValue.str LICENSE_URL),
   ("access_notes", MetaValue.str ("API snapshot captured by script at " ++ GIT_URL_TO_THIS_FILE))]

/-- Observable effects of a run: network probes, oracle consultations,
payload downloads, catalog commits, the auxiliary refresh, and log lines. -/
inductive Event where
  | probe : String → Event
  | oracleCheck : String → Bool → Event
  | download : String → Event
  | commit : String → String → Event
  | auxFetch : Event
  | auxCommit : Event
  | logInfo : String → Event
  | wbNotesFetch : Event
deriving DecidableEq

/-- Whether an event is a freshness-oracle consultation. -/
def Event.isOracleCheck : Event → Bool
  | Event.oracleCheck _ _ => true
  | _ => false

/-- Responses of the external collaborators of `ingests/faostat.py`:
the header probe with its parsed Last-modified date (`requests.head`
plus `dateutil`), the index partition read by `iter_docs`, the payload
download (`files.download`), the catalog commit (`add_to_catalog`), and
the auxiliary metadata fetch and commit. -/
structure World where
  headModDate : String → Except String Date
  index : List IndexRecord
  download : String → Except String Unit
  commit : String → Except String Unit
  auxFetchResult : Except String Unit
  auxCommitResult : Except String Unit

/-- Processing of one allow-listed catalog descriptor inside the loop of
`main`: construct the `FAODataset` (header probe), consult
`is_dataset_already_up_to_date`, and if stale download the payload and
commit it with its metadata record.  The returned Bool reports whether
this dataset was updated; an `Except.error` models an uncaught Python
exception. -/
def processOne (w : World) (v : String) (d : Descriptor) : List Event × Except String Bool :=
  match w.headModDate d.fileLocation with
  | Except.error e => ([Event.probe d.fileLocation], Except.error e)
  | Except.ok modDate =>
    match is_dataset_already_up_to_date w.index d.fileLocation modDate with
    | Except.error e => ([Event.probe d.fileLocation], Except.error e)
    | Except.ok true =>
      ([Event.probe d.fileLocation, Event.oracleCheck d.fileLocation true], Except.ok false)
    | Except.ok false =>
      match w.download d.fileLocation with
      | Except.error e =>
        ([Event.probe d.fileLocation, Event.oracleCheck d.fileLocation false,
          Event.download d.fileLocation], Except.error e)
      | Except.ok _ =>
        match FAODataset.metadata v d with
        | none =>
          ([Event.probe d.fileLocation, Event.oracleCheck d.fileLocation false,
            Event.download d.fileLocation], Except.error "ValueError: Invalid isoformat string")
        | some _ =>
          match w.commit (FAODataset.short_name d) with
          | Except.error e =>
            ([Event.probe d.fileLocation, Event.oracleCheck d.fileLocation false,
              Event.download d.fileLocation], Except.error e)
          | Except.ok _ =>
            ([Event.probe d.fileLocation, Event.oracleCheck d.fileLocation false,
              Event.download d.fileLocation,
              Event.commit (FAODataset.short_name d) d.fileLocation], Except.ok true)

/-- Outcome of the main loop: its trace, the first uncaught exception if
any, and the final value of the `any_dataset_was_updated` flag. -/
structure LoopOut where
  trace : List Event
  error : Option String
  updated : Bool
deriving DecidableEq

/-- The loop of `main` over the catalog listing: descriptors whose
lower-cased code is not in the allow-list are skipped; an uncaught
exception stops the loop. -/
def runLoop (w : World) (v : String) (allow : List String) : List Descriptor → Bool → LoopOut
  | [], upd => ⟨[], none, upd⟩
  | d :: rest, upd =>
    if strToLower d.datasetCode ∈ allow then
      match processOne w v d with
      | (evs, Except.error e) => ⟨evs, some e, upd⟩
      | (evs, Except.ok updated) =>
        let lo := runLoop w v allow rest (upd || updated)
        ⟨evs ++ lo.trace, lo.error, lo.updated⟩
    else runLoop w v allow rest upd

/-- The auxiliary refresh (`FAOAdditionalMetadata().to_walden()`):
fetch the additional metadata, then commit it. -/
def auxStep (w : World) : List Event × Option String :=
  match w.auxFetchResult with
  | Except.error e => ([Event.auxFetch], some e)
  | Except.ok _ =>
    match w.auxCommitResult with
    | Except.error e => ([Event.auxFetch], some e)
    | Except.ok _ => ([Event.auxFetch, Event.auxCommit], none)

/-- Log line emitted when no dataset needed updating. -/
def noAuxMsg : String :=
  "No need to fetch additional metadata, since all datasets are up-to-date."

/-- Final state of a run of `main`. -/
structure RunResult where
  trace : List Event
  error : Option String
  anyUpdated : Bool
deriving DecidableEq

/-- `main` of `ingests/faostat.py` over a fetched catalog listing: loop
over the descriptors, then run the auxiliary refresh if and only if the
loop finished normally with at least one dataset updated, otherwise (on
a normal finish) log an informational line. -/
def runMain (w : World) (v : String) (catalog : List Descriptor) (allow : List String) :
    RunResult :=
  let lo := runLoop w v allow catalog false
  match lo.error with
  | some e => ⟨lo.trace, some e, lo.updated⟩
  | none =>
    if lo.updated then
      match auxStep w with
      | (aevs, some e) => ⟨lo.trace ++ aevs, some e, lo.updated⟩
      | (aevs, none) => ⟨lo.trace ++ aevs, none, lo.updated⟩
    else ⟨lo.trace ++ [Event.logInfo noAuxMsg], none, lo.updated⟩

/-- Whether `needle` is a prefix of `hay` (character lists). -/
def isPrefixOfList : List Char → List Char → Bool
  | [], _ => true
  | _ :: _, [] => false
  | a :: as, b :: bs => a == b && isPrefixOfList as bs

/-- Whether `needle` occurs in `hay` (character lists). -/
def listContains : List Char → List Char → Bool
  | hay, needle =>
    isPrefixOfList needle hay ||
      match hay with
      | [] => false
      | _ :: t => listContains t needle

/-- Python substring containment `needle in hay` on strings. -/
def strContains (hay needle : String) : Bool :=
  needle.isEmpty || listContains hay.data needle.data

/-- Source data URL of `ingests/wb_income_groups.py`. -/
def wb_SOURCE_DATA_URL : String :=
  "http://databank.worldbank.org/data/download/site-content/CLASS.xlsx"

/-- `create_metadata_dict` of `ingests/wb_income_groups.py`, given the
description loaded from the Notes sheet and the current date
(`datetime.now().date()`). -/
def create_metadata_dict (description : String) (today : Date) : List (String × MetaValue) :=
  [("namespace", MetaValue.str "wb"),
   ("short_name", MetaValue.str "wb_income"),
   ("name", MetaValue.str "World Bank list of economies (June 2021)"),
   ("source_name", MetaValue.str "World Bank"),
   ("url", MetaValue.str "https://datahelpdesk.worldbank.org/knowledgebase/articles/906519-world-bank-country-and-lending-groups"),
   ("source_data_url", MetaValue.str wb_SOURCE_DATA_URL),
   ("description", MetaValue.str description),
   ("date_accessed", MetaValue.str (formatYMD today)),
   ("publication_year", MetaValue.int 2021),
   ("publication_date", MetaValue.str "2021-07-01"),
   ("owid_data_url", MetaValue.str "https://walden.nyc3.digitaloceanspaces.com/wb/2021-07-01/wb_income.xlsx"),
   ("file_extension", MetaValue.str "xlsx"),
   ("license_name", MetaValue.str "CC BY 4.0"),
   ("license_url", MetaValue.str "https://www.worldbank.org/en/about/legal/terms-of-use-for-datasets")]

/-- The exact sentence `check_date` requires in the description. -/
def wb_check_sentence : String :=
  "Income classifications set on 1 July 2021 remain in effect until 1 July 2022"

/-- Error message raised by `check_date` when the sentence is missing. -/
def wb_check_error_msg : String :=
  "ValueError: Source data is no longer from 2021. Or something has changed in Notes sheet!"

/-- `check_date` of `ingests/wb_income_groups.py`: raise ValueError unless
the fixed sentence occurs in the description field of the metadata. -/
def check_date (metadata : List (String × MetaValue)) : Except String Unit :=
  match List.lookup "description" metadata with
  | some (MetaValue.str desc) =>
    if strContains desc wb_check_sentence then Except.ok ()
    else Except.error wb_check_error_msg
  | _ => Except.error "KeyError: description"

/-- External collaborators of `ingests/wb_income_groups.py`: the result
of `load_metadata_description` (network read of the Notes sheet via
pandas, NFKD-normalised), the payload download, and the catalog commit. -/
structure WBWorld where
  loadDescription : Except String String
  download : Except String Unit
  commit : Except String Unit

/-- `main` of `ingests/wb_income_groups.py`: build the metadata record
(this fetches the description), run `check_date`, then download the
payload and commit it.  Returns the event trace and the uncaught
exception, if any. -/
def wbMain (w : WBWorld) (today : Date) : List Event × Option String :=
  match w.loadDescription with
  | Except.error e => ([Event.wbNotesFetch], some e)
  | Except.ok desc =>
    match check_date (create_metadata_dict desc today) with
    | Except.error e => ([Event.wbNotesFetch], some e)
    | Except.ok _ =>
      match w.download with
      | Except.error e => ([Event.wbNotesFetch, Event.download wb_SOURCE_DATA_URL], some e)
      | Except.ok _ =>
        match w.commit with
        | Except.error e => ([Event.wbNotesFetch, Event.download wb_SOURCE_DATA_URL], some e)
        | Except.ok _ =>
          ([Event.wbNotesFetch, Event.download wb_SOURCE_DATA_URL,
            Event.commit "wb_income" wb_SOURCE_DATA_URL], none)

/-- A date is accepted by the `datetime.date` constructor: year 1..9999,
month 1..12, day within the month. -/
def validDate (d : Date) : Prop :=
  1 ≤ d.year ∧ d.year ≤ 9999 ∧ 1 ≤ d.month ∧ d.month ≤ 12 ∧ 1 ≤ d.day ∧
    d.day ≤ daysInMonth d.year d.month

/-- Characterisation of one step of the freshness scan condition. -/
theorem recordFresh_iff (url : String) (M : Date) (r : IndexRecord) :
    recordFresh url M r = true ↔
      r.source_data_url = url ∧
        ∃ d, parseYMD r.date_accessed = some d ∧ Date.ltb M d = true := by
  unfold recordFresh
  cases hp : parseYMD r.date_accessed <;> simp [hp]

/-- On a partition whose dates all parse, the scan returns the
accumulated flag or-ed with the per-record freshness condition. -/
theorem isUpToDateScan_eq (url : String) (M : Date) (l : List IndexRecord) (acc : Bool)
    (h : ∀ r ∈ l, (parseYMD r.date_accessed).isSome = true) :
    isUpToDateScan url M l acc = Except.ok (acc || l.any (recordFresh url M)) := by
  induction l generalizing acc with
  | nil => simp [isUpToDateScan]
  | cons r rs ih =>
    have hr := h r (List.mem_cons_self r rs)
    obtain ⟨d, hd⟩ := Option.isSome_iff_exists.mp hr
    simp only [isUpToDateScan, hd]
    rw [ih _ (fun x hx => h x (List.mem_cons_of_mem _ hx))]
    simp [List.any_cons, recordFresh, hd, Bool.or_assoc]

/-- C1: on any namespace partition whose records all carry a parseable
`date_accessed`, `is_dataset_already_up_to_date` returns normally and
returns true if and only if some record has the candidate URL and a
`date_accessed` strictly later than the source modification date; in
particular equal dates, an empty partition, and a partition with no
matching URL all yield false. -/
theorem c1_freshness_oracle_iff (index : List IndexRecord) (url : String) (M : Date)
    (h : ∀ r ∈ index, (parseYMD r.date_accessed).isSome = true) :
    ∃ b, is_dataset_already_up_to_date index url M = Except.ok b ∧
      (b = true ↔ ∃ r ∈ index, r.source_data_url = url ∧
        ∃ d, parseYMD r.date_accessed = some d ∧ Date.ltb M d = true) := by
  refine ⟨index.any (recordFresh url M), ?_, ?_⟩
  · simpa [is_dataset_already_up_to_date] using isUpToDateScan_eq url M index false h
  · simp [List.any_eq_true, recordFresh_iff]

/-- Witness for C1: a one-record partition with a matching URL accessed
one day after the modification date. -/
theorem c1_freshness_oracle_iff_witness :
    ∃ b, is_dataset_already_up_to_date [⟨"a.json", "u", "2021-07-02"⟩] "u" ⟨2021, 7, 1⟩ =
        Except.ok b ∧
      (b = true ↔ ∃ r ∈ [(⟨"a.json", "u", "2021-07-02"⟩ : IndexRecord)],
        r.source_data_url = "u" ∧
          ∃ d, parseYMD r.date_accessed = some d ∧ Date.ltb ⟨2021, 7, 1⟩ d = true) :=
  c1_freshness_oracle_iff _ _ _ (by decide)

/-- Counterexample for C2: a malformed `date_accessed` makes the scan
raise `ValueError` instead of skipping the record, even though a
correctly parsed sibling record in the same namespace matches the
candidate and is strictly fresher. -/
theorem c2_counterexample :
    is_dataset_already_up_to_date
        [⟨"a.json", "u", "07/01/2021"⟩, ⟨"b.json", "u", "2021-07-02"⟩] "u" ⟨2021, 7, 1⟩ =
      Except.error strptimeErrorMsg ∧
    recordFresh "u" ⟨2021, 7, 1⟩ ⟨"b.json", "u", "2021-07-02"⟩ = true := by
  exact ⟨rfl, by decide⟩

/-- A malformed record anywhere in the partition makes the whole scan
raise `ValueError`. -/
theorem scanErrorOfMalformed (url : String) (M : Date) :
    ∀ (l : List IndexRecord) (acc : Bool), (∃ r ∈ l, parseYMD r.date_accessed = none) →
      isUpToDateScan url M l acc = Except.error strptimeErrorMsg := by
  intro l
  induction l with
  | nil =>
    intro acc h
    rcases h with ⟨r, hr, _⟩
    cases hr
  | cons r rs ih =>
    intro acc h
    rcases h with ⟨x, hx, hpx⟩
    rcases List.mem_cons.mp hx with hhead | htail
    · subst hhead
      simp [isUpToDateScan, hpx]
    · cases hp : parseYMD r.date_accessed with
      | none => simp [isUpToDateScan, hp]
      | some d =>
        simp only [isUpToDateScan, hp]
        exact ih _ ⟨x, htail, hpx⟩

/-- C2 as amended: a record whose `date_accessed` is not parseable as
%Y-%m-%d makes `is_dataset_already_up_to_date` abort the whole scan
with `ValueError`; no record is skipped and no count of malformed
entries is surfaced. -/
theorem c2_amended_scan_aborts (index : List IndexRecord) (url : String) (M : Date)
    (h : ∃ r ∈ index, parseYMD r.date_accessed = none) :
    is_dataset_already_up_to_date index url M = Except.error strptimeErrorMsg :=
  scanErrorOfMalformed url M index false h

/-- Witness for the amended C2: a single malformed record aborts the scan. -/
theorem c2_amended_scan_aborts_witness :
    is_dataset_already_up_to_date [⟨"a.json", "u", "BAD"⟩] "u" ⟨2021, 7, 1⟩ =
      Except.error strptimeErrorMsg :=
  c2_amended_scan_aborts _ _ _ ⟨⟨"a.json", "u", "BAD"⟩, by decide, by decide⟩

/-- C9: `short_name` is a pure, deterministic function of the stable
dataset code alone: any two descriptors sharing a code yield the same
string, namely the namespace joined to the lower-cased code. -/
theorem c9_short_name_deterministic (d1 d2 : Descriptor) (h : d1.datasetCode = d2.datasetCode) :
    FAODataset.short_name d1 = FAODataset.short_name d2 ∧
    FAODataset.short_name d1 = NAMESPACE ++ "_" ++ strToLower d1.datasetCode := by
  constructor
  · simp [FAODataset.short_name, h]
  · rfl

/-- Witness for C9: two descriptors that agree only on the code. -/
theorem c9_short_name_deterministic_witness :
    FAODataset.short_name ⟨"QCL", "a", "b", "c", "d"⟩ =
      FAODataset.short_name ⟨"QCL", "x", "y", "z", "w"⟩ ∧
    FAODataset.short_name ⟨"QCL", "a", "b", "c", "d"⟩ =
      NAMESPACE ++ "_" ++ strToLower "QCL" :=
  c9_short_name_deterministic _ _ rfl

/-- The header probe is the first observable effect of processing any
allow-listed descriptor. -/
theorem probe_mem_processOne (w : World) (v : String) (d : Descriptor) :
    Event.probe d.fileLocation ∈ (processOne w v d).1 := by
  unfold processOne
  repeat' split
  all_goals simp

/-- A commit event in a single dataset step forces the step to have
succeeded with an update, identifies its fields, and is preceded (in the
same step) by an oracle consultation that returned false. -/
theorem commit_mem_processOne (w : World) (v : String) (d : Descriptor) (sn url : String) :
    Event.commit sn url ∈ (processOne w v d).1 →
    (processOne w v d).2 = Except.ok true ∧ url = d.fileLocation ∧
      sn = FAODataset.short_name d ∧
      Event.oracleCheck d.fileLocation false ∈ (processOne w v d).1 := by
  unfold processOne
  repeat' split
  all_goals intro h
  all_goals simp at h
  · simp [h.1, h.2]

/-- A dataset step that reports an update emitted its commit event. -/
theorem okTrue_commit_mem (w : World) (v : String) (d : Descriptor) :
    (processOne w v d).2 = Except.ok true →
    Event.commit (FAODataset.short_name d) d.fileLocation ∈ (processOne w v d).1 := by
  unfold processOne
  repeat' split
  all_goals intro h
  all_goals simp at h ⊢

/-- A single dataset step never performs the auxiliary fetch. -/
theorem auxFetch_not_mem_processOne (w : World) (v : String) (d : Descriptor) :
    Event.auxFetch ∉ (processOne w v d).1 := by
  unfold processOne
  repeat' split
  all_goals simp

/-- The main loop never performs the auxiliary fetch. -/
theorem runLoop_auxFetch_not_mem (w : World) (v : String) (allow : List String) :
    ∀ (l : List Descriptor) (upd : Bool), Event.auxFetch ∉ (runLoop w v allow l upd).trace := by
  intro l
  induction l with
  | nil => intro upd; simp [runLoop]
  | cons d rest ih =>
    intro upd
    by_cases hg : strToLower d.datasetCode ∈ allow
    · rcases hp : processOne w v d with ⟨evs, res⟩
      have haux := auxFetch_not_mem_processOne w v d
      rw [hp] at haux
      cases res with
      | error e =>
        simp only [runLoop, hg, if_true]
        rw [hp]
        simpa using haux
      | ok updated =>
        simp only [runLoop, hg, if_true]
        rw [hp]
        simp only [List.mem_append, not_or]
        exact ⟨by simpa using haux, ih _⟩
    · simp only [runLoop, hg, if_false]
      exact ih _

/-- Once the update flag is set it stays set. -/
theorem runLoop_upd_mono (w : World) (v : String) (allow : List String) :
    ∀ l : List Descriptor, (runLoop w v allow l true).updated = true := by
  intro l
  induction l with
  | nil => simp [runLoop]
  | cons d rest ih =>
    by_cases hg : strToLower d.datasetCode ∈ allow
    · rcases hp : processOne w v d with ⟨evs, res⟩
      cases res with
      | error e => simp [runLoop, hg, hp]
      | ok updated => simp [runLoop, hg, hp, ih]
    · simp [runLoop, hg, ih]

/-- If the loop reports an update, either the flag was set on entry or
some commit event was emitted. -/
theorem runLoop_commit_of_upd (w : World) (v : String) (allow : List String) :
    ∀ (l : List Descriptor) (upd : Bool), (runLoop w v allow l upd).updated = true →
      upd = true ∨ ∃ sn url, Event.commit sn url ∈ (runLoop w v allow l upd).trace := by
  intro l
  induction l with
  | nil =>
    intro upd h
    simp [runLoop] at h
    exact Or.inl h
  | cons d rest ih =>
    intro upd h
    by_cases hg : strToLower d.datasetCode ∈ allow
    · rcases hp : processOne w v d with ⟨evs, res⟩
      cases res with
      | error e =>
        simp only [runLoop, hg, if_true] at h ⊢
        rw [hp] at h ⊢
        exact Or.inl h
      | ok updated =>
        simp only [runLoop, hg, if_true] at h ⊢
        rw [hp] at h ⊢
        rcases ih _ h with hu | ⟨sn, url, hc⟩
        · simp only [Bool.or_eq_true] at hu
          rcases hu with h1 | h2
          · exact Or.inl h1
          · subst h2
            refine Or.inr ⟨FAODataset.short_name d, d.fileLocation, ?_⟩
            have hcm := okTrue_commit_mem w v d (by rw [hp])
            rw [hp] at hcm
            simp only [List.mem_append]
            exact Or.inl (by simpa using hcm)
        · exact Or.inr ⟨sn, url, by simp only [List.mem_append]; exact Or.inr hc⟩
    · simp only [runLoop, hg, if_false] at h ⊢
      exact ih _ h

/-- Conversely a commit event in the loop trace sets the update flag. -/
theorem runLoop_upd_of_commit (w : World) (v : String) (allow : List String) (sn url : String) :
    ∀ (l : List Descriptor) (upd : Bool),
      Event.commit sn url ∈ (runLoop w v allow l upd).trace →
      (runLoop w v allow l upd).updated = true := by
  intro l
  induction l with
  | nil => intro upd h; simp [runLoop] at h
  | cons d rest ih =>
    intro upd h
    by_cases hg : strToLower d.datasetCode ∈ allow
    · rcases hp : processOne w v d with ⟨evs, res⟩
      cases res with
      | error e =>
        simp only [runLoop, hg, if_true] at h ⊢
        rw [hp] at h ⊢
        have hcm := commit_mem_processOne w v d sn url (by rw [hp]; simpa using h)
        rw [hp] at hcm
        simp at hcm
      | ok updated =>
        simp only [runLoop, hg, if_true] at h ⊢
        rw [hp] at h ⊢
        simp only [List.mem_append] at h
        rcases h with h1 | h2
        · have hcm := commit_mem_processOne w v d sn url (by rw [hp]; simpa using h1)
          rw [hp] at hcm
          have hu : updated = true := by simpa using hcm.1
          subst hu
          simp [runLoop_upd_mono]
        · exact ih _ h2
    · simp only [runLoop, hg, if_false] at h ⊢
      exact ih _ h

/-- Every commit event in the loop trace is accompanied by an oracle
consultation, for the same URL, that returned false. -/
theorem runLoop_commit_oracle (w : World) (v : String) (allow : List String) (sn url : String) :
    ∀ (l : List Descriptor) (upd : Bool),
      Event.commit sn url ∈ (runLoop w v allow l upd).trace →
      Event.oracleCheck url false ∈ (runLoop w v allow l upd).trace := by
  intro l
  induction l with
  | nil => intro upd h; simp [runLoop] at h
  | cons d rest ih =>
    intro upd h
    by_cases hg : strToLower d.datasetCode ∈ allow
    · rcases hp : processOne w v d with ⟨evs, res⟩
      cases res with
      | error e =>
        simp only [runLoop, hg, if_true] at h ⊢
        rw [hp] at h ⊢
        have hcm := commit_mem_processOne w v d sn url (by rw [hp]; simpa using h)
        rw [hp] at hcm
        simp at hcm
      | ok updated =>
        simp only [runLoop, hg, if_true] at h ⊢
        rw [hp] at h ⊢
        simp only [List.mem_append] at h ⊢
        rcases h with h1 | h2
        · have hcm := commit_mem_processOne w v d sn url (by rw [hp]; simpa using h1)
          rw [hp] at hcm
          left
          have hurl : url = d.fileLocation := hcm.2.1
          subst hurl
          simpa using hcm.2.2.2
        · exact Or.inr (ih _ h2)
    · simp only [runLoop, hg, if_false] at h ⊢
      exact ih _ h

theorem runLoop_append (w : World) (v : String) (allow : List String) :
    ∀ (l1 l2 : List Descriptor) (upd : Bool),
      runLoop w v allow (l1 ++ l2) upd =
        match (runLoop w v allow l1 upd).error with
        | some _ => runLoop w v allow l1 upd
        | none =>
          ⟨(runLoop w v allow l1 upd).trace ++
              (runLoop w v allow l2 (runLoop w v allow l1 upd).updated).trace,
            (runLoop w v allow l2 (runLoop w v allow l1 upd).updated).error,
            (runLoop w v allow l2 (runLoop w v allow l1 upd).updated).updated⟩ := by
  intro l1
  induction l1 with
  | nil =>
    intro l2 upd
    simp [runLoop]
  | cons d rest ih =>
    intro l2 upd
    by_cases hg : strToLower d.datasetCode ∈ allow
    · rcases hp : processOne w v d with ⟨evs, res⟩
      cases res with
      | error e =>
        simp only [List.cons_append, runLoop, hg, if_true]
        rw [hp]
      | ok updated =>
        simp only [List.cons_append, runLoop, hg, if_true]
        rw [hp]
        simp only [List.append_eq]
        rw [ih]
        cases herr : (runLoop w v allow rest (upd || updated)).error <;> simp [herr]
    · simp only [List.cons_append, runLoop, hg, if_false]
      exact ih l2 upd

theorem runLoop_filter (w : World) (v : String) (allow : List String) :
    ∀ (l : List Descriptor) (upd : Bool),
      runLoop w v allow (l.filter fun d => strToLower d.datasetCode ∈ allow) upd =
        runLoop w v allow l upd := by
  intro l
  induction l with
  | nil => intro upd; rfl
  | cons d rest ih =>
    intro upd
    by_cases hg : strToLower d.datasetCode ∈ allow
    · rcases hp : processOne w v d with ⟨evs, res⟩
      cases res with
      | error e =>
        simp only [List.filter_cons, hg]
        simp only [runLoop, hg, if_true]
        rw [hp]
      | ok updated =>
        simp only [List.filter_cons, hg]
        simp only [runLoop, hg, if_true]
        rw [hp]
        simp only []
        rw [ih]
    · simp only [List.filter_cons, hg]
      simp only [runLoop, hg, if_false]
      exact ih upd

/-- When the loop finishes without an uncaught exception, every
allow-listed descriptor of the catalog was probed. -/
theorem runLoop_probe (w : World) (v : String) (allow : List String) :
    ∀ (l : List Descriptor) (upd : Bool), (runLoop w v allow l upd).error = none →
      ∀ d ∈ l, strToLower d.datasetCode ∈ allow →
        Event.probe d.fileLocation ∈ (runLoop w v allow l upd).trace := by
  intro l
  induction l with
  | nil => intro upd _ d hd; cases hd
  | cons c rest ih =>
    intro upd herr d hd hgd
    by_cases hg : strToLower c.datasetCode ∈ allow
    · rcases hp : processOne w v c with ⟨evs, res⟩
      cases res with
      | error e =>
        simp only [runLoop, hg, if_true] at herr
        rw [hp] at herr
        simp at herr
      | ok updated =>
        simp only [runLoop, hg, if_true] at herr ⊢
        rw [hp] at herr ⊢
        simp only [List.mem_append]
        rcases List.mem_cons.mp hd with rfl | hd2
        · have hpm := probe_mem_processOne w v d
          rw [hp] at hpm
          exact Or.inl (by simpa using hpm)
        · exact Or.inr (ih _ (by simpa using herr) d hd2 hgd)
    · rcases List.mem_cons.mp hd with rfl | hd2
      · exact absurd hgd hg
      · simp only [runLoop, hg, if_false] at herr ⊢
        exact ih _ herr d hd2 hgd

/-- Enumeration of the possible outcomes of a run of `main`: the loop
failed (no auxiliary refresh), the loop succeeded with no update (an
informational log line, no auxiliary refresh), the auxiliary refresh
itself failed, or the run finished fully with the auxiliary fetch and
commit. -/
theorem runMain_eq (w : World) (v : String) (catalog : List Descriptor) (allow : List String) :
    (∃ e, (runLoop w v allow catalog false).error = some e ∧
       runMain w v catalog allow =
         ⟨(runLoop w v allow catalog false).trace, some e,
           (runLoop w v allow catalog false).updated⟩) ∨
    ((runLoop w v allow catalog false).error = none ∧
       (runLoop w v allow catalog false).updated = false ∧
       runMain w v catalog allow =
         ⟨(runLoop w v allow catalog false).trace ++ [Event.logInfo noAuxMsg], none, false⟩) ∨
    ((runLoop w v allow catalog false).error = none ∧
       (runLoop w v allow catalog false).updated = true ∧
       ∃ e, runMain w v catalog allow =
         ⟨(runLoop w v allow catalog false).trace ++ [Event.auxFetch], some e, true⟩) ∨
    ((runLoop w v allow catalog false).error = none ∧
       (runLoop w v allow catalog false).updated = true ∧
       runMain w v catalog allow =
         ⟨(runLoop w v allow catalog false).trace ++ [Event.auxFetch, Event.auxCommit], none,
           true⟩) := by
  simp only [runMain, auxStep]
  cases herr : (runLoop w v allow catalog false).error with
  | some e => exact Or.inl ⟨e, rfl, rfl⟩
  | none =>
    by_cases hu : (runLoop w v allow catalog false).updated = true
    · cases haf : w.auxFetchResult with
      | error e =>
        refine Or.inr (Or.inr (Or.inl ⟨rfl, hu, e, ?_⟩))
        simp [hu]
      | ok u =>
        cases hac : w.auxCommitResult with
        | error e =>
          refine Or.inr (Or.inr (Or.inl ⟨rfl, hu, e, ?_⟩))
          simp [hu]
        | ok u2 =>
          refine Or.inr (Or.inr (Or.inr ⟨rfl, hu, ?_⟩))
          simp [hu]
    · simp only [Bool.not_eq_true] at hu
      refine Or.inr (Or.inl ⟨rfl, hu, ?_⟩)
      simp [hu]

/-- C6 as amended (faostat side): in the faostat pipeline, every
per-dataset commit event in a run trace is accompanied by a freshness
oracle consultation for that same candidate URL that returned false
(not up to date). -/
theorem c6_amended_commit_needs_oracle (w : World) (v : String) (catalog : List Descriptor)
    (allow : List String) (sn url : String)
    (h : Event.commit sn url ∈ (runMain w v catalog allow).trace) :
    Event.oracleCheck url false ∈ (runMain w v catalog allow).trace := by
  rcases runMain_eq w v catalog allow with ⟨e, hl, heq⟩ | ⟨hl, hu, heq⟩ | ⟨hl, hu, e, heq⟩ |
    ⟨hl, hu, heq⟩ <;> rw [heq] at h ⊢
  · exact runLoop_commit_oracle w v allow sn url catalog false h
  all_goals simp only [List.mem_append] at h ⊢
  all_goals rcases h with h1 | h2
  · exact Or.inl (runLoop_commit_oracle w v allow sn url catalog false h1)
  · simp at h2
  · exact Or.inl (runLoop_commit_oracle w v allow sn url catalog false h1)
  · simp at h2
  · exact Or.inl (runLoop_commit_oracle w v allow sn url catalog false h1)
  · simp at h2

/-- C4 as amended: in every run that finishes without an uncaught
exception, the auxiliary metadata snapshot is fetched if and only if at
least one primary dataset was found stale and committed in that run;
when it is not fetched, the skip is reported by an informational log
line. -/
theorem c4_amended_aux_iff (w : World) (v : String) (catalog : List Descriptor)
    (allow : List String) (h : (runMain w v catalog allow).error = none) :
    (Event.auxFetch ∈ (runMain w v catalog allow).trace ↔
      ∃ sn url, Event.commit sn url ∈ (runMain w v catalog allow).trace) ∧
    (Event.auxFetch ∉ (runMain w v catalog allow).trace →
      Event.logInfo noAuxMsg ∈ (runMain w v catalog allow).trace) := by
  rcases runMain_eq w v catalog allow with ⟨e, hl, heq⟩ | ⟨hl, hu, heq⟩ | ⟨hl, hu, e, heq⟩ |
    ⟨hl, hu, heq⟩ <;> rw [heq] at h ⊢
  · simp at h
  · constructor
    · constructor
      · intro hmem
        simp only [List.mem_append] at hmem
        rcases hmem with h1 | h2
        · exact absurd h1 (runLoop_auxFetch_not_mem w v allow catalog false)
        · simp at h2
      · intro hc
        rcases hc with ⟨sn, url, hc⟩
        simp only [List.mem_append] at hc
        rcases hc with h1 | h2
        · have := runLoop_upd_of_commit w v allow sn url catalog false h1
          rw [hu] at this
          cases this
        · simp at h2
    · intro _
      simp [List.mem_append]
  · simp at h
  · constructor
    · constructor
      · intro _
        rcases runLoop_commit_of_upd w v allow catalog false hu with hfalse | ⟨sn, url, hc⟩
        · cases hfalse
        · exact ⟨sn, url, by simp only [List.mem_append]; exact Or.inl hc⟩
      · intro _
        simp [List.mem_append]
    · intro hn
      exact absurd (by simp [List.mem_append] : Event.auxFetch ∈
        (runLoop w v allow catalog false).trace ++ [Event.auxFetch, Event.auxCommit]) hn

/-- C3 as amended: an uncaught failure while processing one allow-listed
dataset aborts the whole run at that dataset: the run result carries the
exception, the trace stops with the failing dataset's events, the
remaining catalog descriptors are never processed, and no auxiliary
refresh happens. -/
theorem c3_amended_failure_aborts (w : World) (v : String) (allow : List String)
    (pre : List Descriptor) (c : Descriptor) (rest : List Descriptor) (e : String)
    (h0 : (runLoop w v allow pre false).error = none)
    (h1 : strToLower c.datasetCode ∈ allow)
    (h2 : (processOne w v c).2 = Except.error e) :
    runMain w v (pre ++ c :: rest) allow =
      ⟨(runLoop w v allow pre false).trace ++ (processOne w v c).1, some e,
        (runLoop w v allow pre false).updated⟩ := by
  have hc : ∀ u : Bool, runLoop w v allow (c :: rest) u = ⟨(processOne w v c).1, some e, u⟩ := by
    intro u
    rcases hp : processOne w v c with ⟨evs, res⟩
    cases res with
    | ok b =>
      rw [hp] at h2
      simp at h2
    | error e2 =>
      rw [hp] at h2
      simp only [Except.error.injEq] at h2
      subst h2
      simp only [runLoop, h1, if_true]
      rw [hp]
  have hsplit := runLoop_append w v allow pre (c :: rest) false
  rw [h0] at hsplit
  rw [hc] at hsplit
  simp only at hsplit
  simp only [runMain, hsplit]

/-- C7 as amended: the run is insensitive to descriptors whose
lower-cased code is outside the allow-list (they are silently skipped,
contribute no events, and trigger no network call: filtering them away
first gives the identical run), and in a run that finishes without an
uncaught exception every descriptor whose lower-cased code is in the
allow-list is evaluated, starting with its header probe. -/
theorem c7_amended_allowlist (w : World) (v : String) (catalog : List Descriptor)
    (allow : List String) :
    runMain w v (catalog.filter fun d => strToLower d.datasetCode ∈ allow) allow =
      runMain w v catalog allow ∧
    ((runMain w v catalog allow).error = none →
      ∀ d ∈ catalog, strToLower d.datasetCode ∈ allow →
        Event.probe d.fileLocation ∈ (runMain w v catalog allow).trace) := by
  constructor
  · simp only [runMain, runLoop_filter]
  · intro herr d hd hg
    rcases runMain_eq w v catalog allow with ⟨e, hl, heq⟩ | ⟨hl, hu, heq⟩ | ⟨hl, hu, e, heq⟩ |
      ⟨hl, hu, heq⟩
    · rw [heq] at herr
      simp at herr
    · rw [heq]
      have hp := runLoop_probe w v allow catalog false hl d hd hg
      simp [List.mem_append, hp]
    · rw [heq] at herr
      simp at herr
    · rw [heq]
      have hp := runLoop_probe w v allow catalog false hl d hd hg
      simp [List.mem_append, hp]

/-- Test descriptor with an allow-listed code (lower case, as the
allow-list stores codes). -/
def dAE : Descriptor := ⟨"ae", "ASTI Expenditures", "x", "2021-02-11", "u1"⟩

/-- Second test descriptor with a different allow-listed code and URL. -/
def dAF : Descriptor := ⟨"af", "ASTI Researchers", "y", "2021-02-12", "u2"⟩

/-- Test descriptor whose code is upper case, as the FAO catalog
listing delivers codes. -/
def dUpper : Descriptor := ⟨"AE", "ASTI Expenditures", "x", "2021-02-11", "u1"⟩

/-- A world where every collaborator succeeds and the index is empty. -/
def wOk : World :=
  ⟨fun _ => Except.ok ⟨2021, 7, 13⟩, [], fun _ => Except.ok (), fun _ => Except.ok (),
    Except.ok (), Except.ok ()⟩

/-- A world where the payload download of url u1 fails. -/
def wDown1 : World :=
  { wOk with download := fun u => if u == "u1" then Except.error "network error"
      else Except.ok () }

/-- A world where the payload download of url u2 fails. -/
def wDown2 : World :=
  { wOk with download := fun u => if u == "u2" then Except.error "network error"
      else Except.ok () }

/-- Counterexample for C3: with two allow-listed datasets where the
first one's download fails, the run aborts with the exception and the
second dataset is never probed: the loop does not continue over the
remaining candidates. -/
theorem c3_counterexample :
    (runMain wDown1 "2021-07-14" [dAE, dAF] INCLUDED_DATASETS_CODES).error =
      some "network error" ∧
    Event.probe "u2" ∉ (runMain wDown1 "2021-07-14" [dAE, dAF] INCLUDED_DATASETS_CODES).trace := by
  decide

/-- Witness for the amended C3: the failing first dataset aborts the run
with only its own events in the trace. -/
theorem c3_amended_failure_aborts_witness :
    runMain wDown1 "2021-07-14" ([] ++ dAE :: [dAF]) INCLUDED_DATASETS_CODES =
      ⟨(runLoop wDown1 "2021-07-14" INCLUDED_DATASETS_CODES [] false).trace ++
          (processOne wDown1 "2021-07-14" dAE).1, some "network error",
        (runLoop wDown1 "2021-07-14" INCLUDED_DATASETS_CODES [] false).updated⟩ :=
  c3_amended_failure_aborts wDown1 "2021-07-14" INCLUDED_DATASETS_CODES [] dAE [dAF]
    "network error" (by decide) (by decide) (by decide)

/-- Counterexample for C4: a run in which the first dataset was found
stale and committed but a later dataset failed performs no auxiliary
fetch at all, refuting the stated "if and only if" over every run. -/
theorem c4_counterexample :
    Event.commit "faostat_ae" "u1" ∈
      (runMain wDown2 "2021-07-14" [dAE, dAF] INCLUDED_DATASETS_CODES).trace ∧
    Event.auxFetch ∉
      (runMain wDown2 "2021-07-14" [dAE, dAF] INCLUDED_DATASETS_CODES).trace := by
  decide

/-- Witness for the amended C4: a clean run with one stale dataset. -/
theorem c4_amended_aux_iff_witness :
    (Event.auxFetch ∈ (runMain wOk "2021-07-14" [dAE] INCLUDED_DATASETS_CODES).trace ↔
      ∃ sn url, Event.commit sn url ∈
        (runMain wOk "2021-07-14" [dAE] INCLUDED_DATASETS_CODES).trace) ∧
    (Event.auxFetch ∉ (runMain wOk "2021-07-14" [dAE] INCLUDED_DATASETS_CODES).trace →
      Event.logInfo noAuxMsg ∈
        (runMain wOk "2021-07-14" [dAE] INCLUDED_DATASETS_CODES).trace) :=
  c4_amended_aux_iff _ _ _ _ (by decide)

/-- A world for the World Bank pipeline where every collaborator
succeeds and the Notes sheet contains the required sentence. -/
def wbwOk : WBWorld := ⟨Except.ok wb_check_sentence, Except.ok (), Except.ok ()⟩

/-- A world for the World Bank pipeline whose Notes description lacks
the required sentence. -/
def wbwBad : WBWorld := ⟨Except.ok "nothing", Except.ok (), Except.ok ()⟩

/-- Counterexample for C6: the World Bank pipeline downloads and commits
its snapshot in a run whose trace contains no freshness oracle
consultation at all, so not every ingestion pipeline funnels through the
freshness protocol. -/
theorem c6_counterexample :
    (wbMain wbwOk ⟨2021, 7, 1⟩).2 = none ∧
    Event.commit "wb_income" wb_SOURCE_DATA_URL ∈ (wbMain wbwOk ⟨2021, 7, 1⟩).1 ∧
    (wbMain wbwOk ⟨2021, 7, 1⟩).1.all (fun e => !Event.isOracleCheck e) = true := by
  decide

/-- Witness for the amended C6: a committing faostat run contains the
oracle consultation for the committed URL. -/
theorem c6_amended_commit_needs_oracle_witness :
    Event.oracleCheck "u1" false ∈
      (runMain wOk "2021-07-14" [dAE] INCLUDED_DATASETS_CODES).trace :=
  c6_amended_commit_needs_oracle wOk "2021-07-14" [dAE] INCLUDED_DATASETS_CODES
    "faostat_ae" "u1" (by decide)

/-- Counterexample for C7: a descriptor whose code is the upper-case
form of an allow-listed code is not literally in the allow-list, yet it
is evaluated (its header probe fires), so the set of evaluated
descriptors is not exactly those whose code is in the allow-list. -/
theorem c7_counterexample :
    Event.probe "u1" ∈ (runMain wOk "2021-07-14" [dUpper] ["ae"]).trace ∧
    "AE" ∉ ["ae"] := by
  decide

/-- Witness for the amended C7: filtering by the lower-cased-code
membership leaves the run unchanged, and an allow-listed descriptor is
probed in a clean run. -/
theorem c7_amended_allowlist_witness :
    runMain wOk "2021-07-14" ([dAE, dAF].filter fun d => strToLower d.datasetCode ∈ ["ae"]) ["ae"] =
      runMain wOk "2021-07-14" [dAE, dAF] ["ae"] ∧
    Event.probe "u1" ∈ (runMain wOk "2021-07-14" [dAE, dAF] ["ae"]).trace :=
  ⟨(c7_amended_allowlist wOk "2021-07-14" [dAE, dAF] ["ae"]).1,
    (c7_amended_allowlist wOk "2021-07-14" [dAE, dAF] ["ae"]).2 (by decide) dAE (by decide)
      (by decide)⟩

/-- Counterexample for C5: the World Bank record carries no version
field at all, while its date_accessed is the run date; so not every
record produced by a run carries the run-wide version tag. -/
theorem c5_counterexample :
    List.lookup "version" (create_metadata_dict "x" ⟨2021, 7, 1⟩) = none ∧
    List.lookup "date_accessed" (create_metadata_dict "x" ⟨2021, 7, 1⟩) =
      some (MetaValue.str "2021-07-01") := by
  decide

/-- C5 as amended: in the faostat pipeline, every record of a run (the
per-dataset records and the auxiliary metadata record) carries the
run-wide version tag in its version field and its date_accessed equals
that tag; the wb record has date_accessed but no version field. -/
theorem c5_amended_version_tag (v : String) (d : Descriptor) (md : List (String × MetaValue))
    (h : FAODataset.metadata v d = some md) :
    List.lookup "version" md = some (MetaValue.str v) ∧
    List.lookup "date_accessed" md = some (MetaValue.str v) ∧
    ∀ today : Date,
      List.lookup "version" (fao_additional_metadata v today) = some (MetaValue.str v) ∧
      List.lookup "date_accessed" (fao_additional_metadata v today) =
        some (MetaValue.str v) := by
  unfold FAODataset.metadata at h
  cases hp : fromisoformatDate d.dateUpdate with
  | none =>
    rw [hp] at h
    cases h
  | some pd =>
    rw [hp] at h
    simp only [Option.some.injEq] at h
    subst h
    exact ⟨rfl, rfl, fun today => ⟨rfl, rfl⟩⟩

/-- The metadata record of the test descriptor under version tag 2021-07-14. -/
def c5_md : List (String × MetaValue) :=
  (FAODataset.metadata "2021-07-14" dAE).getD []

/-- Witness for the amended C5. -/
theorem c5_amended_version_tag_witness :
    List.lookup "version" c5_md = some (MetaValue.str "2021-07-14") ∧
    List.lookup "date_accessed" c5_md = some (MetaValue.str "2021-07-14") :=
  ⟨(c5_amended_version_tag "2021-07-14" dAE c5_md rfl).1,
    (c5_amended_version_tag "2021-07-14" dAE c5_md rfl).2.1⟩

/-- Lower-case digits produced by `digitChar` are accepted by `isDigitChar`. -/
theorem digitChar_isDigit (k : Nat) (h : k < 10) : isDigitChar (digitChar k) = true := by
  interval_cases k <;> decide

/-- `digitVal` inverts `digitChar` on digits. -/
theorem digitVal_digitChar (k : Nat) (h : k < 10) : digitVal (digitChar k) = k := by
  interval_cases k <;> decide

/-- No month has more than 31 days. -/
theorem daysInMonth_le (y m : Nat) : daysInMonth y m ≤ 31 := by
  unfold daysInMonth
  repeat' split
  all_goals omega

/-- The strict ISO date core accepts exactly the zero-padded rendering
of a valid date. -/
theorem parseIsoCore_pad (y mo da : Nat) (h1 : 1 ≤ y) (h3 : 1 ≤ mo)
    (h4 : mo ≤ 12) (h5 : 1 ≤ da) (h6 : da ≤ daysInMonth y mo) (h2 : y ≤ 9999) :
    parseIsoCore (pad4 y ++ '-' :: pad2 mo ++ '-' :: pad2 da) = some ⟨y, mo, da⟩ := by
  have ha1 : y / 1000 % 10 < 10 := Nat.mod_lt _ (by omega)
  have ha2 : y / 100 % 10 < 10 := Nat.mod_lt _ (by omega)
  have ha3 : y / 10 % 10 < 10 := Nat.mod_lt _ (by omega)
  have ha4 : y % 10 < 10 := Nat.mod_lt _ (by omega)
  have hb1 : mo / 10 % 10 < 10 := Nat.mod_lt _ (by omega)
  have hb2 : mo % 10 < 10 := Nat.mod_lt _ (by omega)
  have hc1 : da / 10 % 10 < 10 := Nat.mod_lt _ (by omega)
  have hc2 : da % 10 < 10 := Nat.mod_lt _ (by omega)
  simp only [pad4, pad2, List.cons_append, List.nil_append, parseIsoCore]
  rw [if_pos]
  · have ey : digitsToNat [digitChar (y / 1000 % 10), digitChar (y / 100 % 10),
        digitChar (y / 10 % 10), digitChar (y % 10)] = y := by
      simp only [digitsToNat, List.foldl, digitVal_digitChar _ ha1, digitVal_digitChar _ ha2,
        digitVal_digitChar _ ha3, digitVal_digitChar _ ha4]
      omega
    have em : digitsToNat [digitChar (mo / 10 % 10), digitChar (mo % 10)] = mo := by
      simp only [digitsToNat, List.foldl, digitVal_digitChar _ hb1, digitVal_digitChar _ hb2]
      omega
    have hda := daysInMonth_le y mo
    have ed : digitsToNat [digitChar (da / 10 % 10), digitChar (da % 10)] = da := by
      simp only [digitsToNat, List.foldl, digitVal_digitChar _ hc1, digitVal_digitChar _ hc2]
      omega
    rw [ey, em, ed]
    rw [if_pos ⟨h1, h3, h4, h5, h6⟩]
  · refine ⟨trivial, trivial, ?_⟩
    simp [digitChar_isDigit _ ha1, digitChar_isDigit _ ha2, digitChar_isDigit _ ha3,
      digitChar_isDigit _ ha4, digitChar_isDigit _ hb1, digitChar_isDigit _ hb2,
      digitChar_isDigit _ hc1, digitChar_isDigit _ hc2]

/-- Round trip: the zero-padded rendering of any valid date is parsed
back by the strict ISO parser of `publication_date`. -/
theorem fromisoformat_format_roundtrip (dt : Date) (h : validDate dt) :
    fromisoformatDate (formatYMD dt) = some dt := by
  obtain ⟨y, mo, da⟩ := dt
  obtain ⟨h1, h2, h3, h4, h5, h6⟩ := h
  have hlen : (pad4 y ++ '-' :: pad2 mo ++ '-' :: pad2 da).length = 10 := by
    simp [pad4, pad2]
  have hl : (formatYMD ⟨y, mo, da⟩).data = pad4 y ++ '-' :: pad2 mo ++ '-' :: pad2 da := rfl
  simp only [fromisoformatDate, hl, hlen, if_true]
  exact parseIsoCore_pad y mo da h1 h3 h4 h5 h6 h2

/-- Counterexample for C8: `publication_date` parsing rejects a
free-text date string (Python `fromisoformat` raises ValueError on it),
while the ISO form of the same date is accepted, refuting that parsing
succeeds for both ISO-8601 and free-text date strings. -/
theorem c8_counterexample :
    FAODataset.publication_date ⟨"ae", "n", "x", "July 1, 2021", "u1"⟩ = none ∧
    FAODataset.publication_date ⟨"ae", "n", "x", "2021-07-01", "u1"⟩ = some ⟨2021, 7, 1⟩ := by
  decide

/-- C8 as amended: `publication_date` parsing accepts exactly strict
ISO-format update-date strings: the zero-padded ISO rendering of any
valid date parses back to that date (free-text strings raise
ValueError, shown in the counterexample; only the separately stored
server modification date is parsed leniently by dateutil). -/
theorem c8_amended_iso_only (d : Descriptor) (dt : Date) (hd : d.dateUpdate = formatYMD dt)
    (h : validDate dt) : FAODataset.publication_date d = some dt := by
  unfold FAODataset.publication_date
  rw [hd]
  exact fromisoformat_format_roundtrip dt h

/-- Witness for the amended C8. -/
theorem c8_amended_iso_only_witness :
    FAODataset.publication_date ⟨"ae", "n", "x", formatYMD ⟨2021, 7, 1⟩, "u1"⟩ =
      some ⟨2021, 7, 1⟩ :=
  c8_amended_iso_only ⟨"ae", "n", "x", formatYMD ⟨2021, 7, 1⟩, "u1"⟩ ⟨2021, 7, 1⟩ rfl
    ⟨by decide, by decide, by decide, by decide, by decide, by decide⟩

/-- C10: in the World Bank pipeline, the description sentence check
guards the payload download and the catalog commit: when the loaded
description lacks the exact sentence, main raises ValueError and
neither the download nor the commit occurs, and conversely a download
or commit event can only occur in a run whose loaded description
contains the sentence. -/
theorem c10_wb_check_guards (w : WBWorld) (today : Date) :
    (∀ desc, w.loadDescription = Except.ok desc →
      strContains desc wb_check_sentence = false →
        (wbMain w today).2 = some wb_check_error_msg ∧
        (∀ url, Event.download url ∉ (wbMain w today).1) ∧
        (∀ sn url, Event.commit sn url ∉ (wbMain w today).1)) ∧
    (∀ url, (Event.download url ∈ (wbMain w today).1 ∨
        ∃ sn, Event.commit sn url ∈ (wbMain w today).1) →
      ∃ desc, w.loadDescription = Except.ok desc ∧
        strContains desc wb_check_sentence = true) := by
  have hcd : ∀ desc, check_date (create_metadata_dict desc today) =
      (if strContains desc wb_check_sentence then Except.ok ()
       else Except.error wb_check_error_msg) := by
    intro desc
    rfl
  constructor
  · intro desc hld hs
    simp only [wbMain, hld, hcd, hs]
    simp
  · intro url hmem
    cases hld : w.loadDescription with
    | error e =>
      simp only [wbMain, hld] at hmem
      simp at hmem
    | ok desc =>
      by_cases hs : strContains desc wb_check_sentence
      · exact ⟨desc, rfl, hs⟩
      · simp only [Bool.not_eq_true] at hs
        simp only [wbMain, hld, hcd, hs] at hmem
        simp at hmem

/-- Witness for C10: a description without the sentence yields the
ValueError and neither a download nor a commit event. -/
theorem c10_wb_check_guards_witness :
    (wbMain wbwBad ⟨2021, 7, 1⟩).2 = some wb_check_error_msg ∧
    Event.download wb_SOURCE_DATA_URL ∉ (wbMain wbwBad ⟨2021, 7, 1⟩).1 ∧
    Event.commit "wb_income" wb_SOURCE_DATA_URL ∉ (wbMain wbwBad ⟨2021, 7, 1⟩).1 :=
  ⟨((c10_wb_check_guards wbwBad ⟨2021, 7, 1⟩).1 "nothing" rfl (by decide)).1,
    ((c10_wb_check_guards wbwBad ⟨2021, 7, 1⟩).1 "nothing" rfl (by decide)).2.1
      wb_SOURCE_DATA_URL,
    ((c10_wb_check_guards wbwBad ⟨2021, 7, 1⟩).1 "nothing" rfl (by decide)).2.2 "wb_income"
      wb_SOURCE_DATA_URL⟩
